import Mathlib

/-!
Verification of the document-database admin API consisting of
`schemas.py` (schema registry), `database.py` (document store adapter)
and `main.py` (HTTP routes).

The embedding is shallow:

* Python/BSON values are `Value`; a document (Python `dict` / BSON
  document) is an association list `Doc` with the usual dict semantics
  (`alookup`, `aset`, `aerase`, `applySet` for `{**a, **b}` and Mongo
  `$set`).
* A pydantic model class is a list of field specifications
  (`FieldSpec`); constructing `Model(**data)` followed by
  `model_dump()` is `validateFields`, which checks declared types,
  numeric bounds and `Literal` enumerations, fills declared defaults,
  ignores unknown extra fields (pydantic's default `extra="ignore"`),
  and produces the fields in declaration order.  Python floats are
  embedded as rationals; pydantic's full lax-coercion matrix (for
  instance string-to-int coercion) is not reproduced, only the declared
  shape constraints.
* `bson.ObjectId` is abstracted as an opaque injective string encoding
  of an abstract id (`oidRender`), with a partial parser (`oidParse`)
  whose failure models the `ObjectId(doc_id)` constructor raising; the
  store state `DBState` carries a counter for freshly generated ids.
  `datetime.now(timezone.utc)` is modelled by explicit clock-read
  arguments (one per call site, in call order); `isoformat()` is the
  abstract rendering `isoStr`.
* FastAPI behaviour at the boundary: `HTTPException` is
  `ApiResult.httpError`; any other exception escaping a handler (the
  adapter's "Database not available" `Exception`, or a pydantic
  `ValidationError` raised by `model(**...)` inside a handler body, for
  which FastAPI installs no handler) reaches the server-error
  middleware and is answered as HTTP 500; this outcome is
  `ApiResult.serverError`.
-/

/-- A Python/BSON value as it occurs in documents of this system. -/
inductive Value where
  | str (s : String)
  | int (n : Int)
  | num (q : ℚ)
  | bool (b : Bool)
  | null
  | dt (t : Nat)
  | oid (o : Nat)
  | list (vs : List Value)
  | obj (fs : List (String × Value))

/-- A document: an association list with Python-dict semantics. -/
abbrev Doc := List (String × Value)

/-- Python `d.get(k)`: first binding of `k`. -/
def alookup {α : Type} : List (String × α) → String → Option α
  | [], _ => none
  | kv :: rest, k => if kv.1 = k then some kv.2 else alookup rest k

/-- Python `k in d`. -/
def hasKey {α : Type} : List (String × α) → String → Bool
  | [], _ => false
  | kv :: rest, k => if kv.1 = k then true else hasKey rest k

/-- Replace the value bound to `k`, keeping its position. -/
def replaceKey {α : Type} : List (String × α) → String → α → List (String × α)
  | [], _, _ => []
  | kv :: rest, k, v => if kv.1 = k then (k, v) :: replaceKey rest k v else kv :: replaceKey rest k v

/-- Python `d[k] = v`: update in place when the key exists, append otherwise. -/
def aset {α : Type} (d : List (String × α)) (k : String) (v : α) : List (String × α) :=
  if hasKey d k then replaceKey d k v else d ++ [(k, v)]

/-- Python `del d[k]` and `d.pop(k, None)`. -/
def aerase {α : Type} : List (String × α) → String → List (String × α)
  | [], _ => []
  | kv :: rest, k => if kv.1 = k then aerase rest k else kv :: aerase rest k

/-- Left fold of single-key assignments: both `{**a, **b}` (dict merge)
and Mongo's `$set` document application have exactly this semantics. -/
def applySet (d : Doc) (u : Doc) : Doc :=
  u.foldl (fun acc kv => aset acc kv.1 kv.2) d

mutual
/-- Structural equality of values (BSON equality as used by simple
equality filters; sufficient for the empty filter the API layer always
passes). -/
def veq : Value → Value → Bool
  | .str a, .str b => a = b
  | .int a, .int b => a = b
  | .num a, .num b => a = b
  | .bool a, .bool b => a = b
  | .null, .null => true
  | .dt a, .dt b => a = b
  | .oid a, .oid b => a = b
  | .list a, .list b => veqList a b
  | .obj a, .obj b => veqPairs a b
  | _, _ => false
def veqList : List Value → List Value → Bool
  | [], [] => true
  | a :: as₀, b :: bs => veq a b && veqList as₀ bs
  | _, _ => false
def veqPairs : List (String × Value) → List (String × Value) → Bool
  | [], [] => true
  | a :: as₀, b :: bs => (a.1 = b.1 : Bool) && veq a.2 b.2 && veqPairs as₀ bs
  | _, _ => false
end

/-- Equality-match semantics of a Mongo filter document. -/
def matchesFilter (fil : Doc) (d : Doc) : Bool :=
  fil.all fun kv =>
    match alookup d kv.1 with
    | some v => veq v kv.2
    | none => false

/-- The value is a raw `datetime` (pre-serialization). -/
def Value.isDt : Value → Bool
  | .dt _ => true
  | _ => false

mutual
/-- No raw `datetime` anywhere inside the value. -/
def noDtDeep : Value → Bool
  | .dt _ => false
  | .list vs => noDtDeepList vs
  | .obj fs => noDtDeepPairs fs
  | _ => true
def noDtDeepList : List Value → Bool
  | [] => true
  | v :: vs => noDtDeep v && noDtDeepList vs
def noDtDeepPairs : List (String × Value) → Bool
  | [] => true
  | kv :: fs => noDtDeep kv.2 && noDtDeepPairs fs
end

/-- The type of one pydantic field, as declared in `schemas.py`:
primitive types, optional integer lower bound (`ge`), rational bounds
for floats, `Literal` string enumerations, `Optional[T]`, `List[T]`,
`Dict[str, float]`, and nested sub-models. -/
inductive FieldType where
  | str
  | int (lo : Option Int)
  | num (lo hi : Option ℚ)
  | bool
  | lit (allowed : List String)
  | opt (t : FieldType)
  | listOf (t : FieldType)
  | mapNum
  | sub (fields : List (String × FieldType × Option Value))

/-- Field name, type, and declared default (`none` = required). -/
abbrev FieldSpec := String × FieldType × Option Value

/-- Validation of a float field with optional `ge`/`le` bounds
(an integer input is coerced to a float, as pydantic does). -/
def validateNum (lo hi : Option ℚ) (v : Value) : Option Value :=
  match v with
  | .num q =>
    if (match lo with | none => true | some l => decide (l ≤ q)) &&
       (match hi with | none => true | some h => decide (q ≤ h)) then some (.num q) else none
  | .int n =>
    if (match lo with | none => true | some l => decide (l ≤ (n : ℚ))) &&
       (match hi with | none => true | some h => decide ((n : ℚ) ≤ h)) then some (.num (n : ℚ)) else none
  | _ => none

/-- Validate every element of a list, failing if any element fails. -/
def listTraverse (f : Value → Option Value) : List Value → Option (List Value)
  | [] => some []
  | v :: vs =>
    match f v, listTraverse f vs with
    | some w, some ws => some (w :: ws)
    | _, _ => none

/-- Validate every value of a string-keyed mapping. -/
def pairsTraverse (f : Value → Option Value) : List (String × Value) → Option (List (String × Value))
  | [] => some []
  | kv :: fs =>
    match f kv.2, pairsTraverse f fs with
    | some w, some ws => some ((kv.1, w) :: ws)
    | _, _ => none

mutual
/-- Validate one raw value against one declared field type, returning
the value as `model_dump()` would render it. -/
def validateValue : FieldType → Value → Option Value
  | .str, v => match v with | .str s => some (.str s) | _ => none
  | .int lo, v =>
    (match v with
     | .int n =>
       (match lo with
        | none => some (.int n)
        | some l => if l ≤ n then some (.int n) else none)
     | _ => none)
  | .num lo hi, v => validateNum lo hi v
  | .bool, v => match v with | .bool b => some (.bool b) | _ => none
  | .lit allowed, v =>
    (match v with
     | .str s => if allowed.contains s then some (.str s) else none
     | _ => none)
  | .opt t, v =>
    (match v with
     | .null => some .null
     | v => validateValue t v)
  | .listOf t, v =>
    (match v with
     | .list vs => (listTraverse (fun w => validateValue t w) vs).map .list
     | _ => none)
  | .mapNum, v =>
    (match v with
     | .obj fs => (pairsTraverse (validateNum none none) fs).map .obj
     | _ => none)
  | .sub fields, v =>
    (match v with
     | .obj fs => (validateFields fields fs).map .obj
     | _ => none)
/-- Constructing `Model(**d)` followed by `model_dump()`: each declared field is
taken from the payload and validated, or replaced by its declared
default (failing when a required field is missing); unknown extra keys
are ignored; the output lists the declared fields in declaration
order. -/
def validateFields : List FieldSpec → Doc → Option Doc
  | [], _ => some []
  | f :: rest, d =>
    match alookup d f.1 with
    | some v =>
      (match validateValue f.2.1 v, validateFields rest d with
       | some w, some tl => some ((f.1, w) :: tl)
       | _, _ => none)
    | none =>
      (match f.2.2 with
       | some dv =>
         (match validateFields rest d with
          | some tl => some ((f.1, dv) :: tl)
          | _ => none)
       | none => none)
end

/-! ### Schema registry (`schemas.py`)

One `List FieldSpec` per pydantic model, mirroring the declared fields:
name, type (with `Field` constraints) and declared default.
`default_factory` defaults appear as the factory's dumped value. -/

/-- Model `StatBlock`. -/
def StatBlockFields : List FieldSpec :=
  [("strength", .int none, some (.int 0)),
   ("agility", .int none, some (.int 0)),
   ("intelligence", .int none, some (.int 0)),
   ("vitality", .int none, some (.int 0)),
   ("luck", .int none, some (.int 0)),
   ("defense", .int none, some (.int 0)),
   ("power", .int none, some (.int 0))]

/-- Value of `StatBlock()` dumped: the default for `default_factory=StatBlock`. -/
def statBlockDefault : Value :=
  .obj [("strength", .int 0), ("agility", .int 0), ("intelligence", .int 0),
        ("vitality", .int 0), ("luck", .int 0), ("defense", .int 0), ("power", .int 0)]

/-- Model `RecipeIngredient`. -/
def RecipeIngredientFields : List FieldSpec :=
  [("item_id", .str, none),
   ("quantity", .int (some 1), some (.int 1))]

/-- Model `Recipe`. -/
def RecipeFields : List FieldSpec :=
  [("ingredients", .listOf (.sub RecipeIngredientFields), some (.list [])),
   ("crafting_time_sec", .int (some 0), some (.int 0)),
   ("crafting_cost", .int (some 0), some (.int 0))]

/-- Model `ImageData`. -/
def ImageDataFields : List FieldSpec :=
  [("url", .opt .str, some .null),
   ("alt", .opt .str, some .null)]

/-- The six-element rarity `Literal`. -/
def rarityLits : List String :=
  ["common", "uncommon", "rare", "epic", "legendary", "mythic"]

/-- Model `Item`. -/
def ItemFields : List FieldSpec :=
  [("name", .str, none),
   ("description", .opt .str, some .null),
   ("item_type", .lit ["weapon", "armor", "accessory", "set", "consumable", "material", "key", "misc"],
     some (.str "misc")),
   ("rarity", .lit rarityLits, some (.str "common")),
   ("price", .int (some 0), some (.int 0)),
   ("image", .opt (.sub ImageDataFields), some .null),
   ("stats", .sub StatBlockFields, some statBlockDefault),
   ("set_parts", .listOf .str, some (.list [])),
   ("recipe", .opt (.sub RecipeFields), some .null),
   ("tradable", .bool, some (.bool true)),
   ("stack_size", .int (some 1), some (.int 1)),
   ("tags", .listOf .str, some (.list []))]

/-- Model `LootEntry`. -/
def LootEntryFields : List FieldSpec :=
  [("item_id", .str, none),
   ("drop_rate", .num (some 0) (some 1), none),
   ("quantity_min", .int (some 1), some (.int 1)),
   ("quantity_max", .int (some 1), some (.int 1))]

/-- Model `LootTable`. -/
def LootTableFields : List FieldSpec :=
  [("name", .str, none),
   ("chest_type", .lit ["wood", "iron", "gold", "diamond", "event", "boss", "custom"],
     some (.str "custom")),
   ("entries", .listOf (.sub LootEntryFields), some (.list [])),
   ("rolls", .int (some 1), some (.int 1))]

/-- Model `Reward`. -/
def RewardFields : List FieldSpec :=
  [("gold", .int none, some (.int 0)),
   ("exp", .int none, some (.int 0)),
   ("items", .listOf (.sub LootEntryFields), some (.list []))]

/-- Value of `Reward()` dumped. -/
def rewardDefault : Value :=
  .obj [("gold", .int 0), ("exp", .int 0), ("items", .list [])]

/-- Model `StatCheck`. -/
def StatCheckFields : List FieldSpec :=
  [("stat", .lit ["strength", "agility", "intelligence", "vitality", "luck", "defense", "power"], none),
   ("threshold", .int (some 0), none),
   ("success_modifier", .num (some 0) none, some (.num 1)),
   ("fail_penalty", .num (some 0) none, some (.num 1))]

/-- Model `Expedition`. -/
def ExpeditionFields : List FieldSpec :=
  [("name", .str, none),
   ("description", .opt .str, some .null),
   ("duration_minutes", .int (some 1), some (.int 30)),
   ("base_rewards", .sub RewardFields, some rewardDefault),
   ("loot_table_id", .opt .str, some .null),
   ("loot_rolls", .int (some 0), some (.int 1)),
   ("stat_checks", .listOf (.sub StatCheckFields), some (.list [])),
   ("recommended_stats", .sub StatBlockFields, some statBlockDefault),
   ("required_level", .int (some 1), some (.int 1))]

/-- Model `Title`. -/
def TitleFields : List FieldSpec :=
  [("name", .str, none),
   ("description", .opt .str, some .null),
   ("rarity", .lit rarityLits, some (.str "common")),
   ("acquisition", .opt .str, some .null)]

/-- Model `Background`. -/
def BackgroundFields : List FieldSpec :=
  [("name", .str, none),
   ("description", .opt .str, some .null),
   ("image", .opt (.sub ImageDataFields), some .null),
   ("rarity", .lit rarityLits, some (.str "common"))]

/-- Model `ActivityReward`. -/
def ActivityRewardFields : List FieldSpec :=
  [("activity_key", .str, none),
   ("base_rewards", .sub RewardFields, some rewardDefault),
   ("loot_table_id", .opt .str, some .null),
   ("loot_rolls", .int (some 0), some (.int 0)),
   ("modifiers", .mapNum, some (.obj []))]

/-- Registry `MODEL_REGISTRY`: lowercase collection name to model. -/
def MODEL_REGISTRY : List (String × List FieldSpec) :=
  [("item", ItemFields),
   ("loottable", LootTableFields),
   ("expedition", ExpeditionFields),
   ("title", TitleFields),
   ("background", BackgroundFields),
   ("activityreward", ActivityRewardFields)]

/-- Python's `str.lower()` (the collection names involved are ASCII). -/
def lowerStr (s : String) : String := String.mk (s.data.map Char.toLower)

/-- Function `get_model_by_collection`: case-insensitive registry lookup. -/
def get_model_by_collection (collection : String) : Option (List FieldSpec) :=
  alookup MODEL_REGISTRY (lowerStr collection)

/-! ### Document store adapter (`database.py`)

The backing Mongo database is a map from collection name to a document
list in insertion order, plus a counter supplying fresh `ObjectId`s.
Each `datetime.now(timezone.utc)` call site takes its clock reading as
an explicit argument. -/

/-- The connected database: collections plus the `ObjectId` source. -/
structure DBState where
  colls : List (String × List Doc)
  nextOid : Nat

/-- The database with no documents. -/
def emptyState : DBState := ⟨[], 0⟩

/-- All documents of a collection (Mongo auto-creates: absent means empty). -/
def getColl (s : DBState) (c : String) : List Doc :=
  (alookup s.colls c).getD []

/-- Replace a collection's documents. -/
def setColl (s : DBState) (c : String) (docs : List Doc) : DBState :=
  ⟨aset s.colls c docs, s.nextOid⟩

/-- Rendering `str(ObjectId)`: an opaque injective encoding of the abstract id
as a nonempty string (the concrete hexadecimal alphabet is irrelevant;
only injectivity and the existence of non-parsing strings matter). -/
def oidRender (n : Nat) : String := String.mk (List.replicate (n + 1) 'x')

/-- Parsing `ObjectId(s)`: parse a string as a store identifier; `none` models
the constructor raising `InvalidId` on malformed input. -/
def oidParse (s : String) : Option Nat :=
  if s.data ≠ [] ∧ s.data.all (fun c => c = 'x') then some (s.data.length - 1) else none

/-- Rendering `datetime.isoformat()`: abstract ISO-8601/RFC3339 rendering of the
instant, with UTC offset. -/
def isoStr (t : Nat) : String := "1970-01-01T00:00:00." ++ Nat.repr t ++ "+00:00"

/-- Python `str()` of a document value; only the `ObjectId` case occurs
in documents this system writes. -/
def valueStr : Value → String
  | .oid n => oidRender n
  | .str s => s
  | .int n => Int.repr n
  | .bool b => if b then "True" else "False"
  | .null => "None"
  | _ => "object"

/-- The `isoformat` conversion of a top-level value, as `serialize_doc`
applies it. -/
def convTop (v : Value) : Value :=
  match v with
  | .dt t => .str (isoStr t)
  | v => v

/-- Function `serialize_doc`: rename a non-`None` `_id` to a stringified `id`
and render top-level `datetime` values in ISO format. -/
def serialize_doc (d : Doc) : Doc :=
  if d.isEmpty then d
  else
    let d1 :=
      match alookup d "_id" with
      | none => d
      | some .null => d
      | some v => aerase (aset d "id" (.str (valueStr v))) "_id"
    d1.map fun kv => (kv.1, convTop kv.2)

/-- Function `create_document` (with the database available): add `created_at`
and `updated_at` from two successive clock reads `t1`, `t2`, let the
driver add a fresh `_id` when the payload has none, append the document
to the collection and return the stringified inserted id. -/
def create_document (s : DBState) (collection_name : String) (data : Doc) (t1 t2 : Nat) :
    String × DBState :=
  let data1 := aset data "created_at" (.dt t1)
  let data2 := aset data1 "updated_at" (.dt t2)
  match alookup data2 "_id" with
  | some v => (valueStr v, setColl s collection_name (getColl s collection_name ++ [data2]))
  | none =>
    let stored := data2 ++ [("_id", .oid s.nextOid)]
    (oidRender s.nextOid,
     ⟨aset s.colls collection_name (getColl s collection_name ++ [stored]), s.nextOid + 1⟩)

/-- Function `get_documents` (with the database available): filter (an absent
filter means `{}`, matching everything), apply `cursor.limit` — a
falsy (absent or zero) limit means unlimited, a negative limit behaves
like its absolute value — and serialize every returned document. -/
def get_documents (s : DBState) (collection_name : String) (filter_dict : Option Doc)
    (limit : Option Int) : List Doc :=
  let matched := (getColl s collection_name).filter (matchesFilter (filter_dict.getD []))
  let limited :=
    match limit with
    | none => matched
    | some n => if n = 0 then matched else matched.take n.natAbs
  limited.map serialize_doc

/-- Predicate of the find-one-by-id query on the stored identifier. -/
def matchesId (k : Nat) (d : Doc) : Bool :=
  match alookup d "_id" with
  | some (.oid j) => j == k
  | _ => false

/-- Function `get_document_by_id` (with the database available): a malformed id
is answered `None`; otherwise the first matching document, serialized,
or `None` when there is none. -/
def get_document_by_id (s : DBState) (collection_name : String) (doc_id : String) : Option Doc :=
  match oidParse doc_id with
  | none => none
  | some k =>
    match (getColl s collection_name).find? (matchesId k) with
    | none => none
    | some d => if d.isEmpty then none else some (serialize_doc d)

/-- The keys `update_document` strips from client payloads. -/
def reservedKeys : List String := ["_id", "id", "created_at", "updated_at"]

/-- Strip the store-owned keys from a client payload. -/
def stripReserved (data : Doc) : Doc :=
  data.filter fun kv => !(reservedKeys.contains kv.1)

/-- Mongo `update_one`: apply `f` to the first document matching `p`,
reporting whether one matched. -/
def setFirst (p : Doc → Bool) (f : Doc → Doc) : List Doc → Bool × List Doc
  | [] => (false, [])
  | d :: ds =>
    if p d then (true, f d :: ds)
    else
      let r := setFirst p f ds
      (r.1, d :: r.2)

/-- Function `update_document` (with the database available): a malformed id
yields `false` with nothing written; otherwise the reserved keys are
stripped, a fresh `updated_at` is set, and the first matching document
receives the `$set` merge; the result is `matched_count > 0`. -/
def update_document (s : DBState) (collection_name : String) (doc_id : String) (data : Doc)
    (t : Nat) : Bool × DBState :=
  match oidParse doc_id with
  | none => (false, s)
  | some k =>
    let upd := aset (stripReserved data) "updated_at" (.dt t)
    let r := setFirst (matchesId k) (fun d => applySet d upd) (getColl s collection_name)
    (r.1, setColl s collection_name r.2)

/-- Mongo `delete_one`: remove the first document matching `p`, reporting
whether one was removed. -/
def deleteFirst (p : Doc → Bool) : List Doc → Bool × List Doc
  | [] => (false, [])
  | d :: ds =>
    if p d then (true, ds)
    else
      let r := deleteFirst p ds
      (r.1, d :: r.2)

/-- Function `delete_document` (with the database available): a malformed id
yields `false`; otherwise the first matching document is removed and
the result is `deleted_count > 0`. -/
def delete_document (s : DBState) (collection_name : String) (doc_id : String) : Bool × DBState :=
  match oidParse doc_id with
  | none => (false, s)
  | some k =>
    let r := deleteFirst (matchesId k) (getColl s collection_name)
    (r.1, setColl s collection_name r.2)

/-! ### API layer (`main.py`)

Each handler returns what FastAPI sends: a 200 body (`ok`), an
`HTTPException` (`httpError status detail`), or — for any other
exception escaping the handler body, for which no handler is installed —
the 500 answer of the server-error middleware (`serverError`).
Handlers that can write also return the resulting store state. -/

/-- The handler's outcome at the HTTP boundary. -/
inductive ApiResult where
  | ok (body : Value)
  | httpError (status : Nat) (detail : String)
  | serverError (msg : String)

/-- The message of the store adapter's database-unavailable `Exception`. -/
def dbUnavailableMsg : String :=
  "Database not available. Check DATABASE_URL and DATABASE_NAME environment variables."

/-- Marker for a pydantic `ValidationError` escaping a handler body. -/
def validationErrorMsg : String := "ValidationError"

namespace Api

/-- Route `GET /api/collection` (`list_documents`): registry lookup first
(404 when unknown, before any store access), then list with the given
`limit` (the route default is 100). -/
def list_documents (db : Option DBState) (collection : String) (limit : Option Int) : ApiResult :=
  match get_model_by_collection collection with
  | none => .httpError 404 "Unknown collection"
  | some _ =>
    match db with
    | none => .serverError dbUnavailableMsg
    | some s => .ok (.obj [("items", .list ((get_documents s collection none limit).map .obj))])

/-- Route `GET /api/collection/id` (`get_document`). -/
def get_document (db : Option DBState) (collection : String) (doc_id : String) : ApiResult :=
  match get_model_by_collection collection with
  | none => .httpError 404 "Unknown collection"
  | some _ =>
    match db with
    | none => .serverError dbUnavailableMsg
    | some s =>
      match get_document_by_id s collection doc_id with
      | none => .httpError 404 "Not found"
      | some doc => .ok (.obj doc)

/-- Route `POST /api/collection` (`create`): registry lookup, validation by
`model(**payload.data)` (whose `ValidationError` escapes uncaught), then
insert with the validated, defaults-filled record. -/
def create (db : Option DBState) (collection : String) (payload : Doc) (t1 t2 : Nat) :
    ApiResult × Option DBState :=
  match get_model_by_collection collection with
  | none => (.httpError 404 "Unknown collection", db)
  | some model =>
    match validateFields model payload with
    | none => (.serverError validationErrorMsg, db)
    | some obj =>
      match db with
      | none => (.serverError dbUnavailableMsg, db)
      | some s =>
        let r := create_document s collection obj t1 t2
        (.ok (.obj [("id", .str r.1)]), some r.2)

/-- Route `PUT /api/collection/id` (`update`): fetch the existing
document, merge the client fields over it in memory, drop `id`,
re-validate the merged record (a failure escapes as an uncaught
`ValidationError`, before any write), then update with only the
client-supplied fields. -/
def update (db : Option DBState) (collection : String) (doc_id : String) (payload : Doc)
    (t : Nat) : ApiResult × Option DBState :=
  match get_model_by_collection collection with
  | none => (.httpError 404 "Unknown collection", db)
  | some model =>
    match db with
    | none => (.serverError dbUnavailableMsg, db)
    | some s =>
      match get_document_by_id s collection doc_id with
      | none => (.httpError 404 "Not found", db)
      | some existing =>
        let merged := aerase (applySet existing payload) "id"
        match validateFields model merged with
        | none => (.serverError validationErrorMsg, db)
        | some _ =>
          let r := update_document s collection doc_id payload t
          if r.1 then (.ok (.obj [("ok", .bool true)]), some r.2)
          else (.httpError 400 "Update failed", some r.2)

/-- Route `DELETE /api/collection/id` (`delete`). -/
def delete (db : Option DBState) (collection : String) (doc_id : String) :
    ApiResult × Option DBState :=
  match get_model_by_collection collection with
  | none => (.httpError 404 "Unknown collection", db)
  | some _ =>
    match db with
    | none => (.serverError dbUnavailableMsg, db)
    | some s =>
      let r := delete_document s collection doc_id
      if r.1 then (.ok (.obj [("ok", .bool true)]), some r.2)
      else (.httpError 404 "Not found", some r.2)

end Api

/-! ### Dictionary laws -/

theorem alookup_of_hasKey_false {α : Type} (d : List (String × α)) (k : String)
    (h : hasKey d k = false) : alookup d k = none := by
  induction d with
  | nil => rfl
  | cons kv rest ih =>
    simp only [hasKey] at h
    simp only [alookup]
    split at h
    · exact absurd h (by simp)
    · next hne => simp only [hne, if_false]; exact ih h

theorem hasKey_of_alookup_some {α : Type} (d : List (String × α)) (k : String) (v : α)
    (h : alookup d k = some v) : hasKey d k = true := by
  induction d with
  | nil => simp [alookup] at h
  | cons kv rest ih =>
    simp only [alookup] at h
    simp only [hasKey]
    split at h
    · next he => simp [he]
    · next hne => simp only [hne, if_false]; exact ih h

theorem alookup_append {α : Type} (a b : List (String × α)) (k : String) :
    alookup (a ++ b) k =
      match alookup a k with
      | some v => some v
      | none => alookup b k := by
  induction a with
  | nil => simp [alookup]
  | cons kv rest ih =>
    simp only [List.cons_append, alookup]
    split
    · rfl
    · exact ih

theorem alookup_append_of_none {α : Type} (a b : List (String × α)) (k : String)
    (h : alookup a k = none) : alookup (a ++ b) k = alookup b k := by
  rw [alookup_append, h]

theorem alookup_replaceKey_self {α : Type} (d : List (String × α)) (k : String) (v : α)
    (h : hasKey d k = true) : alookup (replaceKey d k v) k = some v := by
  induction d with
  | nil => simp [hasKey] at h
  | cons kv rest ih =>
    simp only [hasKey] at h
    simp only [replaceKey]
    split
    · simp [alookup]
    · next hne =>
      simp only [alookup, hne, if_false]
      exact ih (by simpa [hne] using h)

theorem alookup_replaceKey_ne {α : Type} (d : List (String × α)) (k : String) (v : α)
    (k' : String) (hne : k' ≠ k) : alookup (replaceKey d k v) k' = alookup d k' := by
  induction d with
  | nil => rfl
  | cons kv rest ih =>
    simp only [replaceKey]
    split
    · next he =>
      simp only [alookup, he]
      rw [if_neg (fun h => hne h.symm), if_neg (by simpa [he] using fun h => hne h.symm)]
      exact ih
    · simp only [alookup]; split <;> [rfl; exact ih]

theorem mem_keys_of_alookup_some {α : Type} (d : List (String × α)) (k : String) (v : α)
    (h : alookup d k = some v) : k ∈ d.map Prod.fst := by
  induction d with
  | nil => simp [alookup] at h
  | cons kv rest ih =>
    simp only [alookup] at h
    simp only [List.map_cons, List.mem_cons]
    split at h
    · next he => exact Or.inl he.symm
    · exact Or.inr (ih h)

theorem alookup_of_not_mem_keys {α : Type} (d : List (String × α)) (k : String)
    (h : k ∉ d.map Prod.fst) : alookup d k = none := by
  induction d with
  | nil => rfl
  | cons kv rest ih =>
    simp only [List.map_cons, List.mem_cons, not_or] at h
    simp only [alookup]
    rw [if_neg (fun he => h.1 he.symm)]
    exact ih h.2

theorem alookup_aset {α : Type} (d : List (String × α)) (k : String) (v : α) (k' : String) :
    alookup (aset d k v) k' = if k' = k then some v else alookup d k' := by
  unfold aset
  split
  · next hk =>
    by_cases he : k' = k
    · subst he; rw [if_pos rfl]; exact alookup_replaceKey_self d k' v hk
    · rw [if_neg he]; exact alookup_replaceKey_ne d k v k' he
  · next hk =>
    rw [alookup_append]
    by_cases he : k' = k
    · subst he
      rw [alookup_of_hasKey_false d k' (by simpa using hk)]
      simp [alookup]
    · rw [if_neg he]
      cases h : alookup d k' with
      | some w => rfl
      | none => simp only [alookup, if_neg (Ne.symm he)]

theorem aset_of_hasKey_false {α : Type} (d : List (String × α)) (k : String) (v : α)
    (h : hasKey d k = false) : aset d k v = d ++ [(k, v)] := by
  unfold aset
  rw [h]
  simp

theorem hasKey_append {α : Type} (a b : List (String × α)) (k : String) :
    hasKey (a ++ b) k = (hasKey a k || hasKey b k) := by
  induction a with
  | nil => simp [hasKey]
  | cons kv rest ih =>
    simp only [List.cons_append, hasKey]
    split <;> simp_all

theorem alookup_aerase {α : Type} (d : List (String × α)) (k k' : String) :
    alookup (aerase d k) k' = if k' = k then none else alookup d k' := by
  induction d with
  | nil => simp [aerase, alookup]
  | cons kv rest ih =>
    simp only [aerase]
    by_cases he : kv.1 = k <;> by_cases h2 : k' = k
    · subst h2; simp [he, ih]
    · have hkk : ¬(k = k') := fun hh => h2 hh.symm
      simp [he, h2, hkk, ih, alookup]
    · subst h2; simp [he, ih, alookup]
    · by_cases h3 : kv.1 = k'
      · simp [he, h2, h3, alookup]
      · simp [he, h2, h3, ih, alookup]

theorem aerase_of_hasKey_false {α : Type} (d : List (String × α)) (k : String)
    (h : hasKey d k = false) : aerase d k = d := by
  induction d with
  | nil => rfl
  | cons kv rest ih =>
    simp only [hasKey] at h
    simp only [aerase]
    split at h
    · exact absurd h (by simp)
    · next hne => rw [if_neg hne, ih h]

theorem aerase_append {α : Type} (a b : List (String × α)) (k : String) :
    aerase (a ++ b) k = aerase a k ++ aerase b k := by
  induction a with
  | nil => rfl
  | cons kv rest ih =>
    simp only [List.cons_append, aerase]
    split <;> simp [ih]

theorem mem_aerase {α : Type} (d : List (String × α)) (k : String) (kv : String × α)
    (h : kv ∈ aerase d k) : kv ∈ d := by
  induction d with
  | nil => simp [aerase] at h
  | cons x rest ih =>
    simp only [aerase] at h
    split at h
    · exact List.mem_cons_of_mem _ (ih h)
    · rcases List.mem_cons.mp h with h | h
      · exact h ▸ List.mem_cons_self _ _
      · exact List.mem_cons_of_mem _ (ih h)

theorem mem_replaceKey {α : Type} (d : List (String × α)) (k : String) (v : α) (kv : String × α)
    (h : kv ∈ replaceKey d k v) : kv = (k, v) ∨ kv ∈ d := by
  induction d with
  | nil => simp [replaceKey] at h
  | cons x rest ih =>
    simp only [replaceKey] at h
    split at h <;> rcases List.mem_cons.mp h with h | h
    · exact Or.inl h
    · rcases ih h with h | h
      · exact Or.inl h
      · exact Or.inr (List.mem_cons_of_mem _ h)
    · exact Or.inr (h ▸ List.mem_cons_self _ _)
    · rcases ih h with h | h
      · exact Or.inl h
      · exact Or.inr (List.mem_cons_of_mem _ h)

theorem mem_aset {α : Type} (d : List (String × α)) (k : String) (v : α) (kv : String × α)
    (h : kv ∈ aset d k v) : kv = (k, v) ∨ kv ∈ d := by
  unfold aset at h
  split at h
  · exact mem_replaceKey d k v kv h
  · rcases List.mem_append.mp h with h | h
    · exact Or.inr h
    · exact Or.inl (by simpa using h)

theorem applySet_nil (d : Doc) : applySet d [] = d := rfl

theorem applySet_cons (d : Doc) (kv : String × Value) (u : Doc) :
    applySet d (kv :: u) = applySet (aset d kv.1 kv.2) u := rfl

theorem alookup_applySet_of_none (u d : Doc) (k : String) (h : alookup u k = none) :
    alookup (applySet d u) k = alookup d k := by
  induction u generalizing d with
  | nil => rfl
  | cons kv rest ih =>
    simp only [alookup] at h
    split at h
    · exact absurd h (by simp)
    · next hne =>
      rw [applySet_cons, ih _ h, alookup_aset]
      rw [if_neg (fun he => hne he.symm)]

theorem alookup_applySet_of_some (u d : Doc) (k : String) (v : Value)
    (hnd : (u.map Prod.fst).Nodup) (h : alookup u k = some v) :
    alookup (applySet d u) k = some v := by
  induction u generalizing d with
  | nil => simp [alookup] at h
  | cons kv rest ih =>
    simp only [List.map_cons, List.nodup_cons] at hnd
    simp only [alookup] at h
    split at h
    · next he =>
      cases h
      have hrest : alookup rest k = none :=
        alookup_of_not_mem_keys rest k (he ▸ hnd.1)
      rw [applySet_cons, alookup_applySet_of_none _ _ _ hrest, alookup_aset, if_pos he.symm]
    · rw [applySet_cons]
      exact ih _ hnd.2 h

theorem alookup_map_conv (d : Doc) (f : Value → Value) (k : String) :
    alookup (d.map fun kv => (kv.1, f kv.2)) k = (alookup d k).map f := by
  induction d with
  | nil => rfl
  | cons kv rest ih =>
    simp only [List.map_cons, alookup]
    split <;> simp_all

/-! ### Store-state and search laws -/

theorem getColl_setColl_self (s : DBState) (c : String) (l : List Doc) :
    getColl (setColl s c l) c = l := by
  simp [getColl, setColl, alookup_aset]

theorem getColl_setColl_ne (s : DBState) (c c' : String) (l : List Doc) (h : c' ≠ c) :
    getColl (setColl s c l) c' = getColl s c' := by
  simp [getColl, setColl, alookup_aset, h]

theorem find?_append_of_none {α : Type} (p : α → Bool) (a b : List α) (h : a.find? p = none) :
    (a ++ b).find? p = b.find? p := by
  induction a with
  | nil => rfl
  | cons x rest ih =>
    cases hx : p x with
    | true => rw [List.find?_cons_of_pos _ hx] at h; exact Option.noConfusion h
    | false =>
      rw [List.find?_cons_of_neg _ (by simp [hx])] at h
      rw [List.cons_append, List.find?_cons_of_neg _ (by simp [hx])]
      exact ih h

theorem setFirst_of_find?_none (p : Doc → Bool) (f : Doc → Doc) (l : List Doc)
    (h : l.find? p = none) : setFirst p f l = (false, l) := by
  induction l with
  | nil => rfl
  | cons d ds ih =>
    cases hd : p d with
    | true => rw [List.find?_cons_of_pos _ hd] at h; exact Option.noConfusion h
    | false =>
      rw [List.find?_cons_of_neg _ (by simp [hd])] at h
      simp [setFirst, hd, ih h]

theorem setFirst_of_find?_some (p : Doc → Bool) (f : Doc → Doc) (l : List Doc) (d : Doc)
    (h : l.find? p = some d) :
    (setFirst p f l).1 = true ∧
    (p (f d) = true → (setFirst p f l).2.find? p = some (f d)) := by
  induction l with
  | nil => exact Option.noConfusion h
  | cons x rest ih =>
    cases hx : p x with
    | true =>
      rw [List.find?_cons_of_pos _ hx] at h
      cases h
      refine ⟨by simp [setFirst, hx], fun hfd => ?_⟩
      simp only [setFirst, hx, if_true]
      exact List.find?_cons_of_pos _ hfd
    | false =>
      rw [List.find?_cons_of_neg _ (by simp [hx])] at h
      rcases ih h with ⟨h1, h2⟩
      refine ⟨by simp [setFirst, hx, h1], fun hfd => ?_⟩
      simp only [setFirst, hx, if_false, Bool.false_eq_true]
      rw [List.find?_cons_of_neg _ (by simp [hx])]
      exact h2 hfd

theorem oidParse_render (n : Nat) : oidParse (oidRender n) = some n := by
  unfold oidParse oidRender
  rw [if_pos]
  · simp
  · refine ⟨by simp, ?_⟩
    simp only [List.all_eq_true, decide_eq_true_eq]
    intro c hc
    exact List.eq_of_mem_replicate hc

theorem convTop_of_not_dt (v : Value) (h : v.isDt = false) : convTop v = v := by
  cases v <;> first | rfl | simp [Value.isDt] at h

/-! ### The validators never produce store-owned keys or raw datetimes -/

/-- A model declaration is clean: no top-level field is named like a
store-owned key, and no declared default is a raw datetime. -/
def specClean (fields : List FieldSpec) : Bool :=
  fields.all fun f =>
    !(reservedKeys.contains f.1) &&
    (match f.2.2 with
     | some dv => !dv.isDt
     | none => true)

/-- A payload is clean: no store-owned key, no raw datetime value at
top level. -/
def payloadClean (P : Doc) : Bool :=
  P.all fun kv => !(reservedKeys.contains kv.1) && !kv.2.isDt

theorem validateNum_isDt (lo hi : Option ℚ) (v w : Value) (h : validateNum lo hi v = some w) :
    w.isDt = false := by
  unfold validateNum at h
  split at h
  · split at h
    · cases h; rfl
    · exact Option.noConfusion h
  · split at h
    · cases h; rfl
    · exact Option.noConfusion h
  · exact Option.noConfusion h

theorem validateValue_isDt_bound : ∀ (n : Nat) (t : FieldType) (v w : Value),
    sizeOf t ≤ n → validateValue t v = some w → w.isDt = false := by
  intro n
  induction n with
  | zero =>
    intro t v w ht h
    exfalso
    cases t <;> simp at ht
  | succ n ih =>
    intro t v w ht h
    cases t with
    | str =>
      unfold validateValue at h
      split at h
      · cases h; rfl
      · exact Option.noConfusion h
    | int lo =>
      unfold validateValue at h
      split at h
      · split at h
        · cases h; rfl
        · split at h
          · cases h; rfl
          · exact Option.noConfusion h
      · exact Option.noConfusion h
    | num lo hi =>
      exact validateNum_isDt lo hi v w h
    | bool =>
      unfold validateValue at h
      split at h
      · cases h; rfl
      · exact Option.noConfusion h
    | lit allowed =>
      unfold validateValue at h
      split at h
      · split at h
        · cases h; rfl
        · exact Option.noConfusion h
      · exact Option.noConfusion h
    | opt t =>
      unfold validateValue at h
      split at h
      · cases h; rfl
      · refine ih t _ _ ?_ h
        simp only [FieldType.opt.sizeOf_spec] at ht
        omega
    | listOf t =>
      unfold validateValue at h
      split at h
      · rcases Option.map_eq_some'.mp h with ⟨ws, _, rfl⟩
        rfl
      · exact Option.noConfusion h
    | mapNum =>
      unfold validateValue at h
      split at h
      · rcases Option.map_eq_some'.mp h with ⟨ws, _, rfl⟩
        rfl
      · exact Option.noConfusion h
    | sub fields =>
      unfold validateValue at h
      split at h
      · rcases Option.map_eq_some'.mp h with ⟨ws, _, rfl⟩
        rfl
      · exact Option.noConfusion h

theorem validateValue_isDt (t : FieldType) (v w : Value) (h : validateValue t v = some w) :
    w.isDt = false :=
  validateValue_isDt_bound (sizeOf t) t v w le_rfl h

theorem validateFields_clean (fields : List FieldSpec) (d : Doc) :
    ∀ P, specClean fields = true → validateFields fields d = some P →
    payloadClean P = true := by
  induction fields with
  | nil =>
    intro P _ hv
    cases hv
    rfl
  | cons f rest ih =>
    intro P hs hv
    simp only [specClean, List.all_cons, Bool.and_eq_true] at hs
    unfold validateFields at hv
    split at hv
    · split at hv
      · next w tl hw htl =>
        cases hv
        simp only [payloadClean, List.all_cons, Bool.and_eq_true]
        refine ⟨⟨by simpa using hs.1.1, ?_⟩, ?_⟩
        · simp [validateValue_isDt _ _ _ hw]
        · have := ih tl (by simpa [specClean] using hs.2) htl
          simpa [payloadClean] using this
      · exact Option.noConfusion hv
    · split at hv
      · next dv hdv =>
        split at hv
        · next tl htl =>
          cases hv
          simp only [payloadClean, List.all_cons, Bool.and_eq_true]
          refine ⟨⟨by simpa using hs.1.1, ?_⟩, ?_⟩
          · have h2 := hs.1.2
            rw [hdv] at h2
            simpa using h2
          · have := ih tl (by simpa [specClean] using hs.2) htl
            simpa [payloadClean] using this
        · exact Option.noConfusion hv
      · exact Option.noConfusion hv

theorem alookup_mem {α : Type} (l : List (String × α)) (k : String) (v : α)
    (h : alookup l k = some v) : (k, v) ∈ l := by
  induction l with
  | nil => exact Option.noConfusion h
  | cons kv rest ih =>
    simp only [alookup] at h
    split at h
    · next he =>
      cases h
      exact he ▸ List.mem_cons_self _ _
    · exact List.mem_cons_of_mem _ (ih h)

theorem registry_specClean (c : String) (fields : List FieldSpec)
    (h : get_model_by_collection c = some fields) : specClean fields = true := by
  have hm := alookup_mem _ _ _ h
  simp only [ MODEL_REGISTRY, List.mem_cons, List.not_mem_nil, or_false, Prod.mk.injEq] at hm
  rcases hm with ⟨_, rfl⟩ | ⟨_, rfl⟩ | ⟨_, rfl⟩ | ⟨_, rfl⟩ | ⟨_, rfl⟩ | ⟨_, rfl⟩ <;> rfl

theorem payloadClean_hasKey (P : Doc) (k : String) (hP : payloadClean P = true)
    (hk : reservedKeys.contains k = true) : hasKey P k = false := by
  induction P with
  | nil => rfl
  | cons kv rest ih =>
    simp only [payloadClean, List.all_cons, Bool.and_eq_true] at hP
    simp only [hasKey]
    split
    · next he =>
      exfalso
      have h1 : reservedKeys.contains kv.1 = false := by simpa using hP.1.1
      rw [he, hk] at h1
      exact Bool.noConfusion h1
    · exact ih (by simpa [payloadClean] using hP.2)

theorem payloadClean_map_conv (P : Doc) (hP : payloadClean P = true) :
    (P.map fun kv => (kv.1, convTop kv.2)) = P := by
  induction P with
  | nil => rfl
  | cons kv rest ih =>
    simp only [payloadClean, List.all_cons, Bool.and_eq_true] at hP
    simp only [List.map_cons]
    rw [convTop_of_not_dt kv.2 (by simpa using hP.1.2)]
    rw [ih (by simpa [payloadClean] using hP.2)]

theorem serialize_insert (P : Doc) (t1 t2 k : Nat) (hP : payloadClean P = true) :
    serialize_doc (P ++ [("created_at", .dt t1), ("updated_at", .dt t2), ("_id", .oid k)]) =
      P ++ [("created_at", .str (isoStr t1)), ("updated_at", .str (isoStr t2)),
            ("id", .str (oidRender k))] := by
  have h_id : hasKey P "_id" = false := payloadClean_hasKey P "_id" hP (by rfl)
  have h_idk : hasKey P "id" = false := payloadClean_hasKey P "id" hP (by rfl)
  have hlook : alookup (P ++ [("created_at", Value.dt t1), ("updated_at", Value.dt t2),
      ("_id", Value.oid k)]) "_id" = some (.oid k) := by
    rw [alookup_append_of_none _ _ _ (alookup_of_hasKey_false P _ h_id)]
    rfl
  have hne : (P ++ [("created_at", Value.dt t1), ("updated_at", Value.dt t2),
      ("_id", Value.oid k)]).isEmpty = false := by
    cases P <;> rfl
  have hkeyid : hasKey (P ++ [("created_at", Value.dt t1), ("updated_at", Value.dt t2),
      ("_id", Value.oid k)]) "id" = false := by
    rw [hasKey_append, h_idk]
    rfl
  unfold serialize_doc
  rw [hne]
  simp only [Bool.false_eq_true, if_false, hlook]
  rw [aset_of_hasKey_false _ _ _ hkeyid]
  rw [show (P ++ [("created_at", Value.dt t1), ("updated_at", Value.dt t2),
      ("_id", Value.oid k)]) ++ [("id", Value.str (valueStr (Value.oid k)))] =
      P ++ ([("created_at", Value.dt t1), ("updated_at", Value.dt t2),
      ("_id", Value.oid k)] ++ [("id", Value.str (valueStr (Value.oid k)))]) from
    (List.append_assoc _ _ _)]
  rw [aerase_append, aerase_of_hasKey_false P _ h_id]
  rw [show aerase ([("created_at", Value.dt t1), ("updated_at", Value.dt t2),
      ("_id", Value.oid k)] ++ [("id", Value.str (valueStr (Value.oid k)))]) "_id" =
      [("created_at", Value.dt t1), ("updated_at", Value.dt t2),
       ("id", Value.str (valueStr (Value.oid k)))] from rfl]
  rw [List.map_append, payloadClean_map_conv P hP]
  rfl

/-! ### Claims -/

/-- C1: for every registered collection and every payload that
validates against its model, `create_document` followed by
`get_document_by_id` on the returned identifier returns exactly the
validated payload plus the server-assigned `id`, `created_at` and
`updated_at` fields (the freshness hypothesis says the store's next id
is not already present, which the id counter guarantees for every
reachable state). -/
theorem claim1_insert_findById_roundtrip (s : DBState) (c : String) (fields : List FieldSpec)
    (raw P : Doc) (t1 t2 : Nat)
    (hm : get_model_by_collection c = some fields)
    (hv : validateFields fields raw = some P)
    (hfresh : ∀ d ∈ getColl s c, matchesId s.nextOid d = false) :
    (create_document s c P t1 t2).1 = oidRender s.nextOid ∧
    get_document_by_id (create_document s c P t1 t2).2 c (create_document s c P t1 t2).1 =
      some (P ++ [("created_at", .str (isoStr t1)), ("updated_at", .str (isoStr t2)),
                  ("id", .str (oidRender s.nextOid))]) := by
  have hP : payloadClean P = true :=
    validateFields_clean fields raw P (registry_specClean c fields hm) hv
  have hca : hasKey P "created_at" = false := payloadClean_hasKey P _ hP (by rfl)
  have hua : hasKey P "updated_at" = false := payloadClean_hasKey P _ hP (by rfl)
  have hid : hasKey P "_id" = false := payloadClean_hasKey P _ hP (by rfl)
  have hd1 : aset P "created_at" (Value.dt t1) = P ++ [("created_at", Value.dt t1)] :=
    aset_of_hasKey_false _ _ _ hca
  have hd2 : aset (P ++ [("created_at", Value.dt t1)]) "updated_at" (Value.dt t2) =
      P ++ [("created_at", Value.dt t1), ("updated_at", Value.dt t2)] := by
    rw [aset_of_hasKey_false _ _ _ (by rw [hasKey_append, hua]; rfl)]
    simp
  have hnoid : alookup (P ++ [("created_at", Value.dt t1), ("updated_at", Value.dt t2)])
      "_id" = none := by
    rw [alookup_append_of_none _ _ _ (alookup_of_hasKey_false P _ hid)]
    rfl
  have hcreate : create_document s c P t1 t2 =
      (oidRender s.nextOid,
       ⟨aset s.colls c (getColl s c ++
          [P ++ [("created_at", Value.dt t1), ("updated_at", Value.dt t2),
                 ("_id", Value.oid s.nextOid)]]),
        s.nextOid + 1⟩) := by
    simp only [create_document]
    rw [hd1, hd2, hnoid]
    simp
  rw [hcreate]
  refine ⟨rfl, ?_⟩
  have hstoredid : alookup (P ++ [("created_at", Value.dt t1), ("updated_at", Value.dt t2),
      ("_id", Value.oid s.nextOid)]) "_id" = some (.oid s.nextOid) := by
    rw [alookup_append_of_none _ _ _ (alookup_of_hasKey_false P _ hid)]
    rfl
  have hmatch : matchesId s.nextOid (P ++ [("created_at", Value.dt t1),
      ("updated_at", Value.dt t2), ("_id", Value.oid s.nextOid)]) = true := by
    unfold matchesId
    rw [hstoredid]
    simp
  have hcoll : getColl (⟨aset s.colls c (getColl s c ++
      [P ++ [("created_at", Value.dt t1), ("updated_at", Value.dt t2),
             ("_id", Value.oid s.nextOid)]]), s.nextOid + 1⟩ : DBState) c =
      getColl s c ++ [P ++ [("created_at", Value.dt t1), ("updated_at", Value.dt t2),
        ("_id", Value.oid s.nextOid)]] := by
    simp [getColl, alookup_aset]
  have hfind : (getColl s c ++ [P ++ [("created_at", Value.dt t1), ("updated_at", Value.dt t2),
      ("_id", Value.oid s.nextOid)]]).find? (matchesId s.nextOid) =
      some (P ++ [("created_at", Value.dt t1), ("updated_at", Value.dt t2),
        ("_id", Value.oid s.nextOid)]) := by
    rw [find?_append_of_none _ _ _ (List.find?_eq_none.mpr (fun d hd => by simp [hfresh d hd]))]
    exact List.find?_cons_of_pos _ hmatch
  have hempty : (P ++ [("created_at", Value.dt t1), ("updated_at", Value.dt t2),
      ("_id", Value.oid s.nextOid)]).isEmpty = false := by
    cases P <;> rfl
  unfold get_document_by_id
  rw [oidParse_render]
  dsimp only
  rw [hcoll, hfind]
  dsimp only
  rw [hempty]
  simp only [Bool.false_eq_true, if_false]
  rw [serialize_insert P t1 t2 s.nextOid hP]

/-- Witness for C1 at the `title` collection with payload
`{"name": "Hero"}` on the empty store. -/
theorem claim1_witness :
    (create_document emptyState "title"
        [("name", Value.str "Hero"), ("description", Value.null),
         ("rarity", Value.str "common"), ("acquisition", Value.null)] 0 1).1 =
      oidRender 0 ∧
    get_document_by_id
        (create_document emptyState "title"
          [("name", Value.str "Hero"), ("description", Value.null),
           ("rarity", Value.str "common"), ("acquisition", Value.null)] 0 1).2 "title"
        (create_document emptyState "title"
          [("name", Value.str "Hero"), ("description", Value.null),
           ("rarity", Value.str "common"), ("acquisition", Value.null)] 0 1).1 =
      some ([("name", Value.str "Hero"), ("description", Value.null),
             ("rarity", Value.str "common"), ("acquisition", Value.null)] ++
            [("created_at", .str (isoStr 0)), ("updated_at", .str (isoStr 1)),
             ("id", .str (oidRender 0))]) :=
  claim1_insert_findById_roundtrip emptyState "title" TitleFields
    [("name", Value.str "Hero")]
    [("name", Value.str "Hero"), ("description", Value.null),
     ("rarity", Value.str "common"), ("acquisition", Value.null)] 0 1
    rfl rfl (fun d hd => by simp [getColl, emptyState, alookup] at hd)

theorem alookup_append_of_some {α : Type} (a b : List (String × α)) (k : String) (v : α)
    (h : alookup a k = some v) : alookup (a ++ b) k = some v := by
  rw [alookup_append, h]

/-- C4: a syntactically invalid identifier makes `get_document_by_id`
return `None` and `update_document`/`delete_document` return `False`
with the store untouched; none of the three raises — indistinguishable
from a missing document. -/
theorem claim4_malformed_id (s : DBState) (c doc_id : String) (data : Doc) (t : Nat)
    (h : oidParse doc_id = none) :
    get_document_by_id s c doc_id = none ∧
    update_document s c doc_id data t = (false, s) ∧
    delete_document s c doc_id = (false, s) := by
  unfold get_document_by_id update_document delete_document
  rw [h]
  exact ⟨rfl, rfl, rfl⟩

/-- Witness for C4 at the malformed identifier string `nope`. -/
theorem claim4_witness :
    get_document_by_id emptyState "item" "nope" = none ∧
    update_document emptyState "item" "nope" [("name", Value.str "X")] 0 = (false, emptyState) ∧
    delete_document emptyState "item" "nope" = (false, emptyState) :=
  claim4_malformed_id emptyState "item" "nope" [("name", Value.str "X")] 0 rfl

/-- C8: a `GET /api/{collection}` naming an unregistered collection is
answered 404 whatever the store state — also with no database
configured — because the registry lookup precedes any store access. -/
theorem claim8_unknown_collection_404 (db : Option DBState) (collection : String)
    (limit : Option Int) (h : get_model_by_collection collection = none) :
    Api.list_documents db collection limit = .httpError 404 "Unknown collection" := by
  unfold Api.list_documents
  rw [h]

/-- Witness for C8: unknown collection, no database connection. -/
theorem claim8_witness :
    Api.list_documents none "unknowncollection" (some 100) =
      .httpError 404 "Unknown collection" :=
  claim8_unknown_collection_404 none "unknowncollection" (some 100) rfl

/-- C5 (code behaviour at the claimed input): `POST /api/item` with an
`item_type` outside the `Literal` set makes `model(**payload.data)`
raise a pydantic `ValidationError` inside the handler body; FastAPI has
no handler installed for it, so the response is the server-error
middleware's HTTP 500 — not the 422 the claim asserts. -/
theorem claim5_invalid_enum_is_500 :
    Api.create (some emptyState) "item"
      [("name", Value.str "Thing"), ("item_type", Value.str "not-a-real-type")] 0 0 =
      (.serverError validationErrorMsg, some emptyState) := rfl

/-- C7 (amended): at insertion `created_at` and `updated_at` are set
from two successive clock reads, `created_at` from the first; they are
equal exactly when the two reads return the same timestamp — the code
does not force equality. -/
theorem claim7_created_updated_at_insert (s : DBState) (c : String) (P : Doc) (t1 t2 : Nat) :
    ∃ d, getColl (create_document s c P t1 t2).2 c = getColl s c ++ [d] ∧
      alookup d "created_at" = some (.dt t1) ∧
      alookup d "updated_at" = some (.dt t2) ∧
      (alookup d "updated_at" = alookup d "created_at" ↔ t2 = t1) := by
  have h2 : alookup (aset (aset P "created_at" (Value.dt t1)) "updated_at" (Value.dt t2))
      "updated_at" = some (Value.dt t2) := by
    rw [alookup_aset]
    simp
  have h3 : alookup (aset (aset P "created_at" (Value.dt t1)) "updated_at" (Value.dt t2))
      "created_at" = some (Value.dt t1) := by
    rw [alookup_aset, if_neg (by decide), alookup_aset]
    simp
  simp only [create_document]
  cases hid : alookup (aset (aset P "created_at" (Value.dt t1)) "updated_at" (Value.dt t2))
      "_id" with
  | some v =>
    refine ⟨aset (aset P "created_at" (Value.dt t1)) "updated_at" (Value.dt t2),
      getColl_setColl_self s c _, h3, h2, ?_⟩
    rw [h2, h3]
    simp
  | none =>
    refine ⟨aset (aset P "created_at" (Value.dt t1)) "updated_at" (Value.dt t2) ++
        [("_id", Value.oid s.nextOid)], ?_, ?_, ?_, ?_⟩
    · simp [getColl, alookup_aset]
    · exact alookup_append_of_some _ _ _ _ h3
    · exact alookup_append_of_some _ _ _ _ h2
    · rw [alookup_append_of_some _ _ _ _ h2, alookup_append_of_some _ _ _ _ h3]
      simp

/-- C7 counterexample: two successive clock reads need not coincide;
with reads 0 then 1 the persisted record has `updated_at` different
from `created_at`, refuting the claimed equality. -/
theorem claim7_counterexample :
    getColl (create_document emptyState "item" [("name", Value.str "Sword")] 0 1).2 "item" =
      [[("name", Value.str "Sword"), ("created_at", Value.dt 0), ("updated_at", Value.dt 1),
        ("_id", Value.oid 0)]] ∧
    Value.dt 0 ≠ Value.dt 1 :=
  ⟨rfl, by simp⟩

/-- C2: a `PUT` whose client fields, merged over the existing document,
fail the collection's validation is rejected by the uncaught
`ValidationError` before `update_document` is ever called: the store
state is returned unchanged and a subsequent `GET` still returns the
original document. -/
theorem claim2_put_invalid_merge_no_write (s : DBState) (c doc_id : String)
    (model : List FieldSpec) (payload existing : Doc) (t : Nat)
    (hm : get_model_by_collection c = some model)
    (hex : get_document_by_id s c doc_id = some existing)
    (hv : validateFields model (aerase (applySet existing payload) "id") = none) :
    Api.update (some s) c doc_id payload t = (.serverError validationErrorMsg, some s) ∧
    get_document_by_id s c doc_id = some existing := by
  refine ⟨?_, hex⟩
  unfold Api.update
  rw [hm]
  dsimp only
  rw [hex]
  dsimp only
  rw [hv]

/-- The store used by the C2 witness: one `title` document. -/
def titleStore : DBState :=
  ⟨[("title", [[("name", Value.str "Hero"), ("created_at", Value.dt 0),
               ("updated_at", Value.dt 0), ("_id", Value.oid 0)]])], 1⟩

/-- Witness for C2: updating the stored title's `rarity` to the
non-enum value `ultra` is rejected with nothing written. -/
theorem claim2_witness :
    Api.update (some titleStore) "title" "x" [("rarity", Value.str "ultra")] 5 =
      (.serverError validationErrorMsg, some titleStore) ∧
    get_document_by_id titleStore "title" "x" =
      some [("name", Value.str "Hero"), ("created_at", Value.str (isoStr 0)),
            ("updated_at", Value.str (isoStr 0)), ("id", Value.str (oidRender 0))] :=
  claim2_put_invalid_merge_no_write titleStore "title" "x" TitleFields
    [("rarity", Value.str "ultra")]
    [("name", Value.str "Hero"), ("created_at", Value.str (isoStr 0)),
     ("updated_at", Value.str (isoStr 0)), ("id", Value.str (oidRender 0))]
    5 rfl rfl rfl

/-- C10: the collection path parameter is lowercased only for the
registry lookup and passed verbatim to the store: two names equal up to
case resolve the same model, yet a create through the first leaves the
second's backing collection untouched while extending the first's. -/
theorem claim10_case_only_lowered_for_registry (s : DBState) (c1 c2 : String) (P : Doc)
    (t1 t2 : Nat) (hl : lowerStr c1 = lowerStr c2) (hne : c1 ≠ c2) :
    get_model_by_collection c1 = get_model_by_collection c2 ∧
    getColl (create_document s c1 P t1 t2).2 c2 = getColl s c2 ∧
    (∃ d, getColl (create_document s c1 P t1 t2).2 c1 = getColl s c1 ++ [d]) := by
  refine ⟨by unfold get_model_by_collection; rw [hl], ?_, ?_⟩
  · simp only [create_document]
    cases hid : alookup (aset (aset P "created_at" (Value.dt t1)) "updated_at" (Value.dt t2))
        "_id" with
    | some v => exact getColl_setColl_ne s c1 c2 _ (Ne.symm hne)
    | none => simp [getColl, alookup_aset, Ne.symm hne]
  · simp only [create_document]
    cases hid : alookup (aset (aset P "created_at" (Value.dt t1)) "updated_at" (Value.dt t2))
        "_id" with
    | some v => exact ⟨_, getColl_setColl_self s c1 _⟩
    | none =>
      refine ⟨aset (aset P "created_at" (Value.dt t1)) "updated_at" (Value.dt t2) ++
          [("_id", Value.oid s.nextOid)], ?_⟩
      simp [getColl, alookup_aset]

/-- Witness for C10: `Item` and `item` resolve the same model but name
different backing collections. -/
theorem claim10_witness :
    get_model_by_collection "Item" = get_model_by_collection "item" ∧
    getColl (create_document emptyState "Item" [("name", Value.str "Sword")] 0 0).2 "item" =
      getColl emptyState "item" ∧
    (∃ d, getColl (create_document emptyState "Item" [("name", Value.str "Sword")] 0 0).2
        "Item" = getColl emptyState "Item" ++ [d]) :=
  claim10_case_only_lowered_for_registry emptyState "Item" "item"
    [("name", Value.str "Sword")] 0 0 rfl (by decide)

/-- C9 (amended): a provided non-zero limit caps the returned count at
the absolute value of the limit (the backing cursor treats a negative
limit like its absolute value); an omitted or zero limit returns every
matching document. -/
theorem claim9_limit_caps (s : DBState) (c : String) (fil : Option Doc) (n : Int)
    (hn : n ≠ 0) :
    (get_documents s c fil (some n)).length =
      min n.natAbs ((getColl s c).filter (matchesFilter (fil.getD []))).length ∧
    get_documents s c fil none =
      ((getColl s c).filter (matchesFilter (fil.getD []))).map serialize_doc ∧
    get_documents s c fil (some 0) =
      ((getColl s c).filter (matchesFilter (fil.getD []))).map serialize_doc := by
  unfold get_documents
  refine ⟨?_, rfl, by simp⟩
  simp [hn, List.length_take]

/-- Five documents in the `item` collection, for the C9 theorems. -/
def fiveItemStore : DBState :=
  ⟨[("item", [[("_id", Value.oid 0)], [("_id", Value.oid 1)], [("_id", Value.oid 2)],
              [("_id", Value.oid 3)], [("_id", Value.oid 4)]])], 5⟩

/-- C9 counterexample: the claim says a non-zero limit caps the count
at that limit, but listing five documents with limit `-2` returns two
records, and `2 ≤ -2` is false — the cap is the absolute value. -/
theorem claim9_counterexample :
    (get_documents fiveItemStore "item" none (some (-2))).length = 2 ∧
    ¬(((get_documents fiveItemStore "item" none (some (-2))).length : Int) ≤ -2) ∧
    (getColl fiveItemStore "item").length = 5 := by
  refine ⟨rfl, by decide, rfl⟩

/-- Witness for C9 (amended): limit 2 on five documents returns exactly
`min 2 5 = 2` records; no limit returns all five. -/
theorem claim9_witness :
    (get_documents fiveItemStore "item" none (some 2)).length =
      min (Int.natAbs 2)
        ((getColl fiveItemStore "item").filter
          (matchesFilter ((none : Option Doc).getD []))).length ∧
    get_documents fiveItemStore "item" none none =
      ((getColl fiveItemStore "item").filter
        (matchesFilter ((none : Option Doc).getD []))).map serialize_doc ∧
    get_documents fiveItemStore "item" none (some 0) =
      ((getColl fiveItemStore "item").filter
        (matchesFilter ((none : Option Doc).getD []))).map serialize_doc :=
  claim9_limit_caps fiveItemStore "item" none 2 (by decide)

/-- Well-formedness of a stored document, as guaranteed for everything
this system writes: its `_id` is a store-generated `ObjectId`, and raw
`datetime` values occur at top level only (`created_at`/`updated_at`). -/
def storedWF (d : Doc) : Bool :=
  (match alookup d "_id" with
   | some (.oid _) => true
   | _ => false) &&
  d.all fun kv => kv.2.isDt || noDtDeep kv.2

theorem serialize_doc_boundary (d : Doc) (hwf : storedWF d = true) :
    alookup (serialize_doc d) "_id" = none ∧
    (∃ i, alookup (serialize_doc d) "id" = some (.str i)) ∧
    (∀ kv ∈ serialize_doc d, noDtDeep kv.2 = true) := by
  rw [storedWF, Bool.and_eq_true] at hwf
  obtain ⟨h1, h2⟩ := hwf
  have hj : ∃ j, alookup d "_id" = some (.oid j) := by
    split at h1
    · next j heq => exact ⟨j, heq⟩
    · exact absurd h1 (by simp)
  obtain ⟨j, hjeq⟩ := hj
  have hne : d.isEmpty = false := by
    cases d with
    | nil => exact absurd hjeq (by simp [alookup])
    | cons kv rest => rfl
  unfold serialize_doc
  rw [hne]
  simp only [Bool.false_eq_true, if_false]
  rw [hjeq]
  dsimp only
  refine ⟨?_, ⟨valueStr (Value.oid j), ?_⟩, ?_⟩
  · rw [alookup_map_conv, alookup_aerase, if_pos rfl]
    rfl
  · rw [alookup_map_conv, alookup_aerase, if_neg (by decide), alookup_aset, if_pos rfl]
    rfl
  · intro kv hkv
    rcases List.mem_map.mp hkv with ⟨kv2, hkv2, rfl⟩
    have hkv3 := mem_aset d "id" (Value.str (valueStr (Value.oid j))) kv2
      (mem_aerase _ "_id" kv2 hkv2)
    rcases hkv3 with rfl | hkv3
    · rfl
    · cases hdt : kv2.2.isDt with
      | true =>
        obtain ⟨tt, htt⟩ : ∃ tt, kv2.2 = Value.dt tt := by
          cases hv : kv2.2 <;> simp [hv, Value.isDt] at hdt ⊢
        rw [htt]
        rfl
      | false =>
        have h : noDtDeep kv2.2 = true := by
          have hor := (List.all_eq_true.mp h2) kv2 hkv3
          simpa [hdt] using hor
        rw [convTop_of_not_dt _ hdt]
        exact h

/-- C6: every record leaving the store through `get_documents` or
`get_document_by_id` has the internal `_id` renamed to a stringified
`id` and every datetime value rendered textually; the internal
identifier key never appears (for well-formed stored documents, i.e.
every document this system writes). -/
theorem claim6_serialization_boundary (s : DBState) (c : String) (fil : Option Doc)
    (lim : Option Int) (hwf : ∀ d ∈ getColl s c, storedWF d = true) :
    (∀ r ∈ get_documents s c fil lim,
       alookup r "_id" = none ∧ (∃ i, alookup r "id" = some (.str i)) ∧
       ∀ kv ∈ r, noDtDeep kv.2 = true) ∧
    (∀ doc_id r, get_document_by_id s c doc_id = some r →
       alookup r "_id" = none ∧ (∃ i, alookup r "id" = some (.str i)) ∧
       ∀ kv ∈ r, noDtDeep kv.2 = true) := by
  constructor
  · intro r hr
    simp only [get_documents] at hr
    rcases List.mem_map.mp hr with ⟨d, hd, rfl⟩
    have hdc : d ∈ (getColl s c).filter (matchesFilter (fil.getD [])) := by
      cases lim with
      | none => exact hd
      | some n =>
        dsimp only at hd
        by_cases h0 : n = 0
        · simpa [h0] using hd
        · rw [if_neg h0] at hd
          exact List.take_subset _ _ hd
    exact serialize_doc_boundary d (hwf d (List.mem_of_mem_filter hdc))
  · intro doc_id r hr
    unfold get_document_by_id at hr
    cases hp : oidParse doc_id with
    | none => rw [hp] at hr; exact Option.noConfusion hr
    | some k =>
      rw [hp] at hr
      dsimp only at hr
      cases hf : (getColl s c).find? (matchesId k) with
      | none => rw [hf] at hr; exact Option.noConfusion hr
      | some d =>
        rw [hf] at hr
        dsimp only at hr
        split at hr
        · exact Option.noConfusion hr
        · cases hr
          exact serialize_doc_boundary d (hwf d (List.mem_of_find?_eq_some hf))

/-- Store with one dated `title` document, for the C6 witness. -/
def datedTitleStore : DBState :=
  ⟨[("title", [[("name", Value.str "A"), ("created_at", Value.dt 3),
               ("updated_at", Value.dt 4), ("_id", Value.oid 0)]])], 1⟩

/-- Witness for C6 on a store holding one dated document. -/
theorem claim6_witness :
    (∀ r ∈ get_documents datedTitleStore "title" none none,
       alookup r "_id" = none ∧ (∃ i, alookup r "id" = some (.str i)) ∧
       ∀ kv ∈ r, noDtDeep kv.2 = true) ∧
    (∀ doc_id r, get_document_by_id datedTitleStore "title" doc_id = some r →
       alookup r "_id" = none ∧ (∃ i, alookup r "id" = some (.str i)) ∧
       ∀ kv ∈ r, noDtDeep kv.2 = true) :=
  claim6_serialization_boundary datedTitleStore "title" none none (by decide)

theorem exists_alookup_of_hasKey {α : Type} (d : List (String × α)) (k : String)
    (h : hasKey d k = true) : ∃ v, alookup d k = some v := by
  induction d with
  | nil => simp [hasKey] at h
  | cons kv rest ih =>
    simp only [hasKey] at h
    simp only [alookup]
    split at h
    · next he => exact ⟨kv.2, by simp [he]⟩
    · next he => simpa [he] using ih h

theorem hasKey_false_of_alookup_none {α : Type} (d : List (String × α)) (k : String)
    (h : alookup d k = none) : hasKey d k = false := by
  cases hk : hasKey d k
  · rfl
  · obtain ⟨v, hv⟩ := exists_alookup_of_hasKey d k hk
    rw [h] at hv
    exact Option.noConfusion hv

theorem hasKey_of_mem_keys {α : Type} (d : List (String × α)) (k : String)
    (h : k ∈ d.map Prod.fst) : hasKey d k = true := by
  induction d with
  | nil => simp at h
  | cons kv rest ih =>
    simp only [List.map_cons, List.mem_cons] at h
    simp only [hasKey]
    by_cases he : kv.1 = k
    · simp [he]
    · rw [if_neg he]
      rcases h with h | h
      · exact absurd h.symm he
      · exact ih h

theorem not_mem_keys_of_alookup_none {α : Type} (d : List (String × α)) (k : String)
    (h : alookup d k = none) : k ∉ d.map Prod.fst := by
  intro hmem
  obtain ⟨v, hv⟩ := exists_alookup_of_hasKey d k (hasKey_of_mem_keys d k hmem)
  rw [h] at hv
  exact Option.noConfusion hv

theorem alookup_stripReserved (data : Doc) (k : String) :
    alookup (stripReserved data) k =
      if reservedKeys.contains k = true then none else alookup data k := by
  induction data with
  | nil => simp [stripReserved, alookup]
  | cons kv rest ih =>
    show alookup (List.filter _ (kv :: rest)) k = _
    rw [List.filter_cons]
    by_cases hckv : reservedKeys.contains kv.1 = true
    · simp only [hckv, Bool.not_true, Bool.false_eq_true, if_false]
      rw [show alookup (List.filter (fun kv => !(reservedKeys.contains kv.1)) rest) k =
            alookup (stripReserved rest) k from rfl, ih]
      by_cases hk : reservedKeys.contains k = true
      · rw [if_pos hk, if_pos hk]
      · have hne : ¬(kv.1 = k) := fun he => hk (he ▸ hckv)
        rw [if_neg hk, if_neg hk]
        show alookup rest k = alookup (kv :: rest) k
        simp only [alookup]
        rw [if_neg hne]
    · have hckv2 : reservedKeys.contains kv.1 = false := by
        cases h : reservedKeys.contains kv.1
        · rfl
        · exact absurd h hckv
      simp only [hckv2, Bool.not_false, if_true]
      rw [show alookup (kv :: List.filter (fun kv => !(reservedKeys.contains kv.1)) rest) k =
            (if kv.1 = k then some kv.2 else alookup (stripReserved rest) k) from rfl, ih]
      by_cases hkv1 : kv.1 = k
      · have hk : ¬(reservedKeys.contains k = true) := by
          rw [← hkv1]
          exact hckv
        rw [if_pos hkv1, if_neg hk]
        show some kv.2 = alookup (kv :: rest) k
        simp only [alookup]
        rw [if_pos hkv1]
      · rw [if_neg hkv1]
        by_cases hk : reservedKeys.contains k = true
        · rw [if_pos hk, if_pos hk]
        · rw [if_neg hk, if_neg hk]
          show alookup rest k = alookup (kv :: rest) k
          simp only [alookup]
          rw [if_neg hkv1]

/-- C3: `update_document` strips `_id`/`id`/`created_at`/`updated_at`
from the payload before the merge: the matched document keeps its
stored value at every reserved key other than `updated_at` and at every
key the payload does not mention, receives every non-reserved payload
field, gets a fresh store-set `updated_at`, and the call reports a
match. -/
theorem claim3_update_strips_reserved_and_merges (s : DBState) (c doc_id : String)
    (data : Doc) (t : Nat) (k0 : Nat) (d : Doc)
    (hparse : oidParse doc_id = some k0)
    (hfind : (getColl s c).find? (matchesId k0) = some d)
    (hnd : (data.map Prod.fst).Nodup) :
    (update_document s c doc_id data t).1 = true ∧
    (getColl (update_document s c doc_id data t).2 c).find? (matchesId k0) =
      some (applySet d (aset (stripReserved data) "updated_at" (.dt t))) ∧
    (∀ k, k ≠ "updated_at" →
      (reservedKeys.contains k = true ∨ alookup data k = none) →
      alookup (applySet d (aset (stripReserved data) "updated_at" (.dt t))) k =
        alookup d k) ∧
    (∀ k v, reservedKeys.contains k = false → alookup data k = some v →
      alookup (applySet d (aset (stripReserved data) "updated_at" (.dt t))) k = some v) ∧
    alookup (applySet d (aset (stripReserved data) "updated_at" (.dt t))) "updated_at" =
      some (.dt t) := by
  have hstripua : alookup (stripReserved data) "updated_at" = none := by
    rw [alookup_stripReserved]
    simp [reservedKeys]
  have hupd : aset (stripReserved data) "updated_at" (Value.dt t) =
      stripReserved data ++ [("updated_at", Value.dt t)] :=
    aset_of_hasKey_false _ _ _ (hasKey_false_of_alookup_none _ _ hstripua)
  have hndupd : ((aset (stripReserved data) "updated_at" (Value.dt t)).map Prod.fst).Nodup := by
    rw [hupd, List.map_append]
    rw [List.nodup_append]
    refine ⟨?_, by simp, ?_⟩
    · exact hnd.sublist ((List.filter_sublist data).map Prod.fst)
    · intro x hx
      simp only [List.map_cons, List.map_nil, List.mem_singleton]
      intro hxx
      subst hxx
      exact not_mem_keys_of_alookup_none _ _ hstripua hx
  have hframe : ∀ k, k ≠ "updated_at" →
      (reservedKeys.contains k = true ∨ alookup data k = none) →
      alookup (applySet d (aset (stripReserved data) "updated_at" (.dt t))) k =
        alookup d k := by
    intro k hkua hk
    apply alookup_applySet_of_none
    rw [hupd, alookup_append]
    have hstrip : alookup (stripReserved data) k = none := by
      rw [alookup_stripReserved]
      rcases hk with hk | hk
      · rw [if_pos hk]
      · by_cases hck : reservedKeys.contains k = true
        · rw [if_pos hck]
        · rw [if_neg hck]
          exact hk
    rw [hstrip]
    dsimp only
    simp only [alookup]
    rw [if_neg (show ¬(("updated_at" : String) = k) from fun h => hkua h.symm)]
  refine ⟨?_, ?_, hframe, ?_, ?_⟩
  · unfold update_document
    rw [hparse]
    dsimp only
    rw [(setFirst_of_find?_some _ _ _ _ hfind).1]
  · have hmatchd : matchesId k0 d = true := List.find?_some hfind
    have hmatchnew : matchesId k0
        (applySet d (aset (stripReserved data) "updated_at" (.dt t))) = true := by
      unfold matchesId
      rw [hframe "_id" (by decide) (Or.inl (by rfl))]
      unfold matchesId at hmatchd
      exact hmatchd
    unfold update_document
    rw [hparse]
    dsimp only
    rw [getColl_setColl_self]
    exact (setFirst_of_find?_some _ _ _ _ hfind).2 hmatchnew
  · intro k v hk hv
    apply alookup_applySet_of_some _ _ _ _ hndupd
    rw [hupd]
    apply alookup_append_of_some
    rw [alookup_stripReserved, hk]
    simpa using hv
  · apply alookup_applySet_of_some _ _ _ _ hndupd
    rw [hupd]
    rw [alookup_append_of_none _ _ _ hstripua]
    simp [alookup]

/-- Witness for C3: updating the stored title with a payload that tries
to overwrite `created_at` and `id` while renaming it. -/
theorem claim3_witness :
    (update_document titleStore "title" "x"
        [("name", Value.str "New"), ("created_at", Value.str "evil"),
         ("id", Value.str "evil")] 7).1 = true ∧
    (getColl (update_document titleStore "title" "x"
        [("name", Value.str "New"), ("created_at", Value.str "evil"),
         ("id", Value.str "evil")] 7).2 "title").find? (matchesId 0) =
      some (applySet
        [("name", Value.str "Hero"), ("created_at", Value.dt 0),
         ("updated_at", Value.dt 0), ("_id", Value.oid 0)]
        (aset (stripReserved
          [("name", Value.str "New"), ("created_at", Value.str "evil"),
           ("id", Value.str "evil")]) "updated_at" (.dt 7))) ∧
    (∀ k, k ≠ "updated_at" →
      (reservedKeys.contains k = true ∨
        alookup [("name", Value.str "New"), ("created_at", Value.str "evil"),
                 ("id", Value.str "evil")] k = none) →
      alookup (applySet
        [("name", Value.str "Hero"), ("created_at", Value.dt 0),
         ("updated_at", Value.dt 0), ("_id", Value.oid 0)]
        (aset (stripReserved
          [("name", Value.str "New"), ("created_at", Value.str "evil"),
           ("id", Value.str "evil")]) "updated_at" (.dt 7))) k =
        alookup [("name", Value.str "Hero"), ("created_at", Value.dt 0),
                 ("updated_at", Value.dt 0), ("_id", Value.oid 0)] k) ∧
    (∀ k v, reservedKeys.contains k = false →
      alookup [("name", Value.str "New"), ("created_at", Value.str "evil"),
               ("id", Value.str "evil")] k = some v →
      alookup (applySet
        [("name", Value.str "Hero"), ("created_at", Value.dt 0),
         ("updated_at", Value.dt 0), ("_id", Value.oid 0)]
        (aset (stripReserved
          [("name", Value.str "New"), ("created_at", Value.str "evil"),
           ("id", Value.str "evil")]) "updated_at" (.dt 7))) k = some v) ∧
    alookup (applySet
      [("name", Value.str "Hero"), ("created_at", Value.dt 0),
       ("updated_at", Value.dt 0), ("_id", Value.oid 0)]
      (aset (stripReserved
        [("name", Value.str "New"), ("created_at", Value.str "evil"),
         ("id", Value.str "evil")]) "updated_at" (.dt 7))) "updated_at" =
      some (.dt 7) :=
  claim3_update_strips_reserved_and_merges titleStore "title" "x"
    [("name", Value.str "New"), ("created_at", Value.str "evil"),
     ("id", Value.str "evil")] 7 0
    [("name", Value.str "Hero"), ("created_at", Value.dt 0),
     ("updated_at", Value.dt 0), ("_id", Value.oid 0)]
    rfl rfl (by decide)

/-! ### Reachable stored documents are well-formed

Client payloads arrive as JSON, so raw `datetime` values cannot occur
in them; a validated record of a registered model moreover never
contains one anywhere, which grounds the well-formedness hypothesis of
the serialization-boundary theorem for every document this system
inserts. -/

mutual
/-- No declared default anywhere inside the field type contains a raw
datetime (true of every registered model). -/
def ftClean : FieldType → Bool
  | .opt t => ftClean t
  | .listOf t => ftClean t
  | .sub fields => specsClean fields
  | _ => true
/-- All defaults of the field list, recursively, are datetime-free. -/
def specsClean : List FieldSpec → Bool
  | [] => true
  | f :: rest =>
    (match f.2.2 with
     | some dv => noDtDeep dv
     | none => true) && ftClean f.2.1 && specsClean rest
end

theorem validateNum_noDtDeep (lo hi : Option ℚ) (v w : Value)
    (h : validateNum lo hi v = some w) : noDtDeep w = true := by
  unfold validateNum at h
  split at h
  · split at h
    · cases h; rfl
    · exact Option.noConfusion h
  · split at h
    · cases h; rfl
    · exact Option.noConfusion h
  · exact Option.noConfusion h

theorem listTraverse_noDtDeep (f : Value → Option Value)
    (hf : ∀ v w, f v = some w → noDtDeep w = true) :
    ∀ vs ws, listTraverse f vs = some ws → noDtDeepList ws = true := by
  intro vs
  induction vs with
  | nil =>
    intro ws h
    cases h
    rfl
  | cons v rest ih =>
    intro ws h
    unfold listTraverse at h
    split at h
    · next w ws2 hw hws =>
      cases h
      simp only [noDtDeepList, Bool.and_eq_true]
      exact ⟨hf v w hw, ih ws2 hws⟩
    · exact Option.noConfusion h

theorem pairsTraverse_noDtDeep (f : Value → Option Value)
    (hf : ∀ v w, f v = some w → noDtDeep w = true) :
    ∀ fs ws, pairsTraverse f fs = some ws → noDtDeepPairs ws = true := by
  intro fs
  induction fs with
  | nil =>
    intro ws h
    cases h
    rfl
  | cons kv rest ih =>
    intro ws h
    unfold pairsTraverse at h
    split at h
    · next w ws2 hw hws =>
      cases h
      simp only [noDtDeepPairs, Bool.and_eq_true]
      exact ⟨hf kv.2 w hw, ih ws2 hws⟩
    · exact Option.noConfusion h

theorem validate_noDtDeep_bound : ∀ (n : Nat),
    (∀ (t : FieldType) (v w : Value), sizeOf t ≤ n → ftClean t = true →
      validateValue t v = some w → noDtDeep w = true) ∧
    (∀ (fields : List FieldSpec) (d P : Doc), sizeOf fields ≤ n →
      specsClean fields = true → validateFields fields d = some P →
      noDtDeepPairs P = true) := by
  intro n
  induction n with
  | zero =>
    constructor
    · intro t v w ht
      exfalso
      cases t <;> simp at ht
    · intro fields d P hf
      exfalso
      cases fields <;> simp at hf
  | succ n ih =>
    constructor
    · intro t v w ht hc h
      cases t with
      | str =>
        unfold validateValue at h
        split at h
        · cases h; rfl
        · exact Option.noConfusion h
      | int lo =>
        unfold validateValue at h
        split at h
        · split at h
          · cases h; rfl
          · split at h
            · cases h; rfl
            · exact Option.noConfusion h
        · exact Option.noConfusion h
      | num lo hi => exact validateNum_noDtDeep lo hi v w h
      | bool =>
        unfold validateValue at h
        split at h
        · cases h; rfl
        · exact Option.noConfusion h
      | lit allowed =>
        unfold validateValue at h
        split at h
        · split at h
          · cases h; rfl
          · exact Option.noConfusion h
        · exact Option.noConfusion h
      | opt t =>
        unfold validateValue at h
        split at h
        · cases h; rfl
        · refine ih.1 t _ _ ?_ (by simpa [ftClean] using hc) h
          simp only [FieldType.opt.sizeOf_spec] at ht
          omega
      | listOf t =>
        unfold validateValue at h
        split at h
        · rcases Option.map_eq_some'.mp h with ⟨ws, hws, rfl⟩
          show noDtDeepList ws = true
          refine listTraverse_noDtDeep _
            (fun v w hw => ih.1 t v w ?_ (by simpa [ftClean] using hc) hw) _ _ hws
          simp only [FieldType.listOf.sizeOf_spec] at ht
          omega
        · exact Option.noConfusion h
      | mapNum =>
        unfold validateValue at h
        split at h
        · rcases Option.map_eq_some'.mp h with ⟨ws, hws, rfl⟩
          exact pairsTraverse_noDtDeep _ (fun v w hw => validateNum_noDtDeep _ _ v w hw) _ _ hws
        · exact Option.noConfusion h
      | sub fields =>
        unfold validateValue at h
        split at h
        · rcases Option.map_eq_some'.mp h with ⟨ws, hws, rfl⟩
          show noDtDeepPairs ws = true
          refine ih.2 fields _ _ ?_ (by simpa [ftClean] using hc) hws
          simp only [FieldType.sub.sizeOf_spec] at ht
          omega
        · exact Option.noConfusion h
    · intro fields d P hf hs hv
      cases fields with
      | nil =>
        cases hv
        rfl
      | cons f rest =>
        unfold specsClean at hs
        rw [Bool.and_eq_true, Bool.and_eq_true] at hs
        have hsz : sizeOf f.2.1 ≤ n ∧ sizeOf rest ≤ n := by
          obtain ⟨name, ty, dflt⟩ := f
          dsimp only
          simp only [List.cons.sizeOf_spec, Prod.mk.sizeOf_spec] at hf
          constructor <;> omega
        unfold validateFields at hv
        split at hv
        · split at hv
          · next w tl hw htl =>
            cases hv
            simp only [noDtDeepPairs, Bool.and_eq_true]
            exact ⟨ih.1 f.2.1 _ _ hsz.1 hs.1.2 hw,
                   ih.2 rest _ _ hsz.2 hs.2 htl⟩
          · exact Option.noConfusion hv
        · split at hv
          · next dv hdv =>
            split at hv
            · next tl htl =>
              cases hv
              simp only [noDtDeepPairs, Bool.and_eq_true]
              refine ⟨?_, ih.2 rest _ _ hsz.2 hs.2 htl⟩
              have h2 := hs.1.1
              rw [hdv] at h2
              exact h2
            · exact Option.noConfusion hv
          · exact Option.noConfusion hv

theorem registry_specsClean (c : String) (fields : List FieldSpec)
    (h : get_model_by_collection c = some fields) : specsClean fields = true := by
  have hm := alookup_mem _ _ _ h
  simp only [ MODEL_REGISTRY, List.mem_cons, List.not_mem_nil, or_false, Prod.mk.injEq] at hm
  rcases hm with ⟨_, rfl⟩ | ⟨_, rfl⟩ | ⟨_, rfl⟩ | ⟨_, rfl⟩ | ⟨_, rfl⟩ | ⟨_, rfl⟩ <;> rfl

theorem validateFields_noDtDeep (c : String) (fields : List FieldSpec) (d P : Doc)
    (hm : get_model_by_collection c = some fields)
    (hv : validateFields fields d = some P) : noDtDeepPairs P = true :=
  (validate_noDtDeep_bound (sizeOf fields)).2 fields d P le_rfl
    (registry_specsClean c fields hm) hv

theorem noDtDeepPairs_mem (P : Doc) (hP : noDtDeepPairs P = true) :
    ∀ kv ∈ P, noDtDeep kv.2 = true := by
  induction P with
  | nil => intro kv h; simp at h
  | cons x rest ih =>
    simp only [noDtDeepPairs, Bool.and_eq_true] at hP
    intro kv h
    rcases List.mem_cons.mp h with rfl | h
    · exact hP.1
    · exact ih hP.2 kv h

/-- Every document `create_document` appends for a payload validated
against a registered model is well-formed: its `_id` is the freshly
generated `ObjectId` and raw datetimes occur only at top level (the
timestamps) — so the serialization-boundary hypothesis holds for every
document this system inserts. -/
theorem create_document_storedWF (s : DBState) (c : String) (fields : List FieldSpec)
    (raw P : Doc) (t1 t2 : Nat)
    (hm : get_model_by_collection c = some fields)
    (hv : validateFields fields raw = some P) :
    ∃ d2, getColl (create_document s c P t1 t2).2 c = getColl s c ++ [d2] ∧
      storedWF d2 = true := by
  have hP : payloadClean P = true :=
    validateFields_clean fields raw P (registry_specClean c fields hm) hv
  have hdeep : noDtDeepPairs P = true := validateFields_noDtDeep c fields raw P hm hv
  have hca : hasKey P "created_at" = false := payloadClean_hasKey P _ hP (by rfl)
  have hua : hasKey P "updated_at" = false := payloadClean_hasKey P _ hP (by rfl)
  have hid : hasKey P "_id" = false := payloadClean_hasKey P _ hP (by rfl)
  have hd1 : aset P "created_at" (Value.dt t1) = P ++ [("created_at", Value.dt t1)] :=
    aset_of_hasKey_false _ _ _ hca
  have hd2 : aset (P ++ [("created_at", Value.dt t1)]) "updated_at" (Value.dt t2) =
      P ++ [("created_at", Value.dt t1), ("updated_at", Value.dt t2)] := by
    rw [aset_of_hasKey_false _ _ _ (by rw [hasKey_append, hua]; rfl)]
    simp
  have hnoid : alookup (P ++ [("created_at", Value.dt t1), ("updated_at", Value.dt t2)])
      "_id" = none := by
    rw [alookup_append_of_none _ _ _ (alookup_of_hasKey_false P _ hid)]
    rfl
  refine ⟨P ++ [("created_at", Value.dt t1), ("updated_at", Value.dt t2),
    ("_id", Value.oid s.nextOid)], ?_, ?_⟩
  · simp only [create_document]
    rw [hd1, hd2, hnoid]
    simp [getColl, alookup_aset]
  · rw [storedWF, Bool.and_eq_true]
    constructor
    · rw [show alookup (P ++ [("created_at", Value.dt t1), ("updated_at", Value.dt t2),
          ("_id", Value.oid s.nextOid)]) "_id" = some (.oid s.nextOid) by
        rw [alookup_append_of_none _ _ _ (alookup_of_hasKey_false P _ hid)]; rfl]
    · rw [List.all_eq_true]
      intro kv hkv
      rcases List.mem_append.mp hkv with hkv | hkv
      · simp [noDtDeepPairs_mem P hdeep kv hkv]
      · rcases List.mem_cons.mp hkv with rfl | hkv
        · rfl
        · rcases List.mem_cons.mp hkv with rfl | hkv
          · rfl
          · rcases List.mem_cons.mp hkv with rfl | hkv
            · rfl
            · simp at hkv
